import Mathlib

/-!
Shallow embedding of `src/image_manipulation/single_image.py`, a thin wrapper
module over OpenCV single-image transforms, together with models of the
OpenCV primitives it calls (external library code, modelled from their
documented behaviour where the repository's claims depend on them).

Images are lists of rows; a grayscale image holds `Nat` samples (8-bit range
by convention), a colour image holds BGR triples.
-/

/-- A single-channel (grayscale) image: rows of 8-bit samples. -/
abbrev Mat1 := List (List Nat)

/-- A BGR pixel. -/
abbrev Px3 := Nat × Nat × Nat

/-- A 3-channel (BGR colour) image: rows of BGR pixels. -/
abbrev Mat3 := List (List Px3)

/-- An in-memory image buffer as passed between the wrapper functions:
either single-channel or 3-channel. -/
inductive Img where
  | gray (m : Mat1)
  | color (m : Mat3)
deriving DecidableEq

/-- Errors surfaced to the caller: `valueError` models Python `ValueError`
raised by the wrapper itself; `cvError` models `cv2.error` raised inside the
OpenCV primitives (e.g. failed assertions). -/
inductive CvError where
  | valueError (msg : String)
  | cvError (msg : String)
deriving DecidableEq

/-- OpenCV `borderInterpolate` with `BORDER_REFLECT_101` (the default border
for `filter2D`/`Sobel`): reflect without repeating the edge sample; a
length-1 axis maps every index to 0. -/
def reflect101 (n : Nat) (i : Int) : Nat :=
  if n ≤ 1 then 0
  else
    let p : Int := 2 * ((n : Int) - 1)
    let m : Int := i.emod p
    if m < (n : Int) then m.toNat else (p - m).toNat

/-- Sample an image at (possibly out-of-range) integer coordinates using
reflect-101 border extrapolation. -/
def getPx (m : Mat1) (i j : Int) : Nat :=
  let row := m.getD (reflect101 m.length i) []
  row.getD (reflect101 row.length j) 0

/-- Saturating cast of an intermediate integer result to the 8-bit range,
as OpenCV's `saturate_cast<uchar>` does for integer inputs. -/
def sat255 (x : Int) : Nat := (min (max x 0) 255).toNat

/-- Correlation of a kernel with the image at output position `(i, j)`,
anchored at the kernel centre, with reflect-101 borders: the accumulator of
`cv2.filter2D` / `cv2.Sobel` before any cast. -/
def corrAt (k : List (List Int)) (m : Mat1) (i j : Nat) : Int :=
  let kh := k.length
  let kw := (k.getD 0 []).length
  ((List.range kh).map (fun a =>
    ((List.range kw).map (fun b =>
      (k.getD a []).getD b 0 *
        (getPx m ((i : Int) + a - kh / 2) ((j : Int) + b - kw / 2) : Int))).foldr
      (· + ·) 0)).foldr (· + ·) 0

/-- `cv2.filter2D(src, -1, kernel)` on one channel: correlation with the
kernel, reflect-101 borders, output saturated back to 8 bits (ddepth = -1
keeps the source depth). Modelled from the OpenCV documentation of this
external primitive. -/
def filter2D (k : List (List Int)) (m : Mat1) : Mat1 :=
  (List.range m.length).map fun i =>
    (List.range (m.getD 0 []).length).map fun j => sat255 (corrAt k m i j)

/-- The fixed sharpening kernel defined in `sharpen`:
`np.array([[0, -1, 0], [-1, 5, -1], [0, -1, 0]])`. -/
def sharpenKernel : List (List Int) := [[0, -1, 0], [-1, 5, -1], [0, -1, 0]]

/-- Blue channel of a colour image. -/
def chB (m : Mat3) : Mat1 := m.map (List.map (fun p => p.1))

/-- Green channel of a colour image. -/
def chG (m : Mat3) : Mat1 := m.map (List.map (fun p => p.2.1))

/-- Red channel of a colour image. -/
def chR (m : Mat3) : Mat1 := m.map (List.map (fun p => p.2.2))

/-- `cv2.filter2D` on a 3-channel image applies the kernel to each channel
independently. -/
def filter2DColor (k : List (List Int)) (m : Mat3) : Mat3 :=
  (List.range m.length).map fun i =>
    (List.range (m.getD 0 []).length).map fun j =>
      (sat255 (corrAt k (chB m) i j), sat255 (corrAt k (chG m) i j),
       sat255 (corrAt k (chR m) i j))

/-- `sharpen(image)`: `cv2.filter2D(image, -1, kernel)` with the fixed 3×3
kernel, on either a grayscale or a colour image. -/
def sharpen (img : Img) : Img :=
  match img with
  | Img.gray m => Img.gray (filter2D sharpenKernel m)
  | Img.color m => Img.color (filter2DColor sharpenKernel m)

/-- OpenCV's fixed-point BGR→gray formula:
`Y = (B*1868 + G*9617 + R*4899 + 8192) >> 14`. -/
def grayOfBGR (p : Px3) : Nat :=
  (1868 * p.1 + 9617 * p.2.1 + 4899 * p.2.2 + 8192) / 16384

/-- BGR→gray conversion of a 3-channel matrix. -/
def bgr2grayMat (m : Mat3) : Mat1 := m.map (List.map grayOfBGR)

/-- `cv2.cvtColor(image, cv2.COLOR_BGR2GRAY)`: succeeds on a 3-channel
image; on a single-channel image OpenCV raises `cv2.error` (invalid number
of channels). -/
def cvtColorBGR2GRAY (img : Img) : Except CvError Mat1 :=
  match img with
  | Img.color m => Except.ok (bgr2grayMat m)
  | Img.gray _ =>
      Except.error (CvError.cvError "cvtColor: Invalid number of channels in input image")

/-- Between-class variance (up to the positive factor `1 / N^2`) of splitting
the samples at threshold `t` (low class: samples ≤ t), as in OpenCV's Otsu
threshold selection; degenerate splits score 0 (OpenCV skips them). -/
def otsuSigma (s : List Nat) (t : Nat) : ℚ :=
  let n0 : Nat := (s.filter (fun p => p ≤ t)).length
  let s0 : Nat := (s.filter (fun p => p ≤ t)).foldr (· + ·) 0
  let n1 : Nat := s.length - n0
  let s1 : Nat := s.foldr (· + ·) 0 - s0
  if n0 = 0 ∨ n1 = 0 then 0
  else ((n0 : ℚ) * n1) * ((s0 : ℚ) / n0 - (s1 : ℚ) / n1) ^ 2

/-- Otsu's automatically selected global threshold: the first `t` in
`0..255` maximising the between-class variance (OpenCV keeps the first
strict maximum). Modelled from the OpenCV documentation of this external
primitive. -/
def otsuThresh (s : List Nat) : Nat :=
  ((List.range 256).foldl
    (fun acc t => if acc.2 < otsuSigma s t then (t, otsuSigma s t) else acc)
    ((0 : Nat), (0 : ℚ))).1

/-- `cv2.threshold(gray, 0, 255, cv2.THRESH_BINARY + cv2.THRESH_OTSU)`:
every sample strictly above the Otsu threshold becomes 255, the rest 0. -/
def thresholdOtsu (m : Mat1) : Mat1 :=
  let t := otsuThresh m.flatten
  m.map (List.map (fun p => if t < p then 255 else 0))

/-- Mean of the `bs × bs` neighbourhood of `(i, j)` with reflect-101
borders, rounded to nearest, as OpenCV's normalised box filter computes the
local mean for adaptive thresholding. -/
def boxMean (m : Mat1) (bs i j : Nat) : Nat :=
  let r := bs / 2
  let s := ((List.range bs).map (fun a =>
    ((List.range bs).map (fun b =>
      getPx m ((i : Int) + a - r) ((j : Int) + b - r))).foldr (· + ·) 0)).foldr
    (· + ·) 0
  (s + bs * bs / 2) / (bs * bs)

/-- `cv2.adaptiveThreshold(gray, 255, cv2.ADAPTIVE_THRESH_MEAN_C,
cv2.THRESH_BINARY, blockSize, offset)`: per pixel, 255 where the sample
exceeds the local block mean minus `offset`, else 0. OpenCV asserts that
`blockSize` is odd and greater than 1. Modelled from the OpenCV
documentation of this external primitive. -/
def adaptiveThresholdMeanC (m : Mat1) (blockSize : Nat) (offset : Int) :
    Except CvError Mat1 :=
  if blockSize % 2 = 1 ∧ 1 < blockSize then
    Except.ok
      ((List.range m.length).map fun i =>
        (List.range ((m.getD i []).length)).map fun j =>
          if ((boxMean m blockSize i j : Int) - offset) <
              ((m.getD i []).getD j 0 : Int) then 255 else 0)
  else Except.error (CvError.cvError "adaptiveThreshold: blockSize must be odd and greater than 1")

/-- `apply_threshold(image, method, block_size, offset)` (defaults in the
source: `method='otsu'`, `block_size=5`, `offset=2`): converts to grayscale
first, then dispatches on `method`; any other method string raises
`ValueError('Invalid thresholding method: ' + method)`. -/
def apply_threshold (image : Img) (method : String) (block_size : Nat)
    (offset : Int) : Except CvError Mat1 := do
  let gray ← cvtColorBGR2GRAY image
  if method = "otsu" then
    pure (thresholdOtsu gray)
  else if method = "adaptive" then
    adaptiveThresholdMeanC gray block_size offset
  else
    Except.error (CvError.valueError ("Invalid thresholding method: " ++ method))

/-- Output of `detect_edges`: `cv2.Canny` yields an 8-bit binary edge map,
`cv2.Sobel` with `ddepth=cv2.CV_64F` yields a signed (floating-point)
derivative image, integer-valued on integer input. -/
inductive EdgeOut where
  | binary (m : Mat1)
  | grad (m : List (List Int))
deriving DecidableEq

/-- The separable Sobel kernel for `cv2.Sobel(gray, cv2.CV_64F, 1, 0,
ksize=5)`: x-derivative kernel `[-1, -2, 0, 2, 1]` times the smoothing
kernel `[1, 4, 6, 4, 1]` in y. -/
def sobelKernelX5 : List (List Int) :=
  [[-1, -2, 0, 2, 1],
   [-4, -8, 0, 8, 4],
   [-6, -12, 0, 12, 6],
   [-4, -8, 0, 8, 4],
   [-1, -2, 0, 2, 1]]

/-- Correlation of a kernel over the whole image without any saturating
cast: the result of `cv2.Sobel` at depth `CV_64F` on integer samples. -/
def correlateInt (k : List (List Int)) (m : Mat1) : List (List Int) :=
  (List.range m.length).map fun i =>
    (List.range (m.getD 0 []).length).map fun j => corrAt k m i j

/-- 3×3 Sobel x-derivative kernel (used only inside the Canny model). -/
def sobelGx3 : List (List Int) := [[-1, 0, 1], [-2, 0, 2], [-1, 0, 1]]

/-- 3×3 Sobel y-derivative kernel (used only inside the Canny model). -/
def sobelGy3 : List (List Int) := [[-1, -2, -1], [0, 0, 0], [1, 2, 1]]

/-- Luminance view of an image: a grayscale image is its own luminance, a
colour image is converted pixelwise. -/
def lumOf (img : Img) : Mat1 :=
  match img with
  | Img.gray m => m
  | Img.color m => bgr2grayMat m

/-- Modelled from the spec: `cv2.Canny` is an external primitive that the
spec describes only as producing a single-channel binary edge map from the
input image (it accepts the image as given, single- or 3-channel). We model
it as marking 255 where an L1 Sobel gradient magnitude reaches the high
threshold, 0 elsewhere (hysteresis via the low threshold is not modelled):
a same-size binary edge map. -/
def cannyModel (img : Img) (_low_threshold high_threshold : Nat) : Mat1 :=
  let g := lumOf img
  (List.range g.length).map fun i =>
    (List.range (g.getD 0 []).length).map fun j =>
      if high_threshold ≤
          (corrAt sobelGx3 g i j).natAbs + (corrAt sobelGy3 g i j).natAbs
      then 255 else 0

/-- `detect_edges(image, method, low_threshold, high_threshold)` (defaults
in the source: `method='canny'`, `low_threshold=50`, `high_threshold=150`):
the Canny branch passes the input image directly to `cv2.Canny`; the Sobel
branch converts to grayscale first and computes
`cv2.Sobel(gray, cv2.CV_64F, 1, 0, ksize=5)`; any other method string
raises `ValueError('Invalid edge detection method: ' + method)`. -/
def detect_edges (image : Img) (method : String)
    (low_threshold high_threshold : Nat) : Except CvError EdgeOut :=
  if method = "canny" then
    Except.ok (EdgeOut.binary (cannyModel image low_threshold high_threshold))
  else if method = "sobel" then do
    let gray ← cvtColorBGR2GRAY image
    pure (EdgeOut.grad (correlateInt sobelKernelX5 gray))
  else
    Except.error (CvError.valueError ("Invalid edge detection method: " ++ method))

/-- The three channel samples of a BGR pixel. -/
def tripleList (p : Px3) : List Nat := [p.1, p.2.1, p.2.2]

/-- All samples of an image, across channels, as one flat list (the
population over which `cv2.normalize(..., NORM_MINMAX)` takes its global
min and max). -/
def samples (img : Img) : List Nat :=
  match img with
  | Img.gray m => m.flatten
  | Img.color m => (m.flatten.map tripleList).flatten

/-- Minimum of a list of naturals (0 on the empty list; only used on
non-empty lists). -/
def listMin (l : List Nat) : Nat :=
  match l with
  | [] => 0
  | a :: t => t.foldl min a

/-- Maximum of a list of naturals (0 on the empty list). -/
def listMax (l : List Nat) : Nat :=
  match l with
  | [] => 0
  | a :: t => t.foldl max a

/-- The per-sample map of min-max normalisation to `[0, 255]`: when the
range is non-degenerate, `(p - mn) * 255 / (mx - mn)` rounded to nearest;
when `mx ≤ mn` OpenCV's epsilon guard zeroes the scale, so every sample
maps to 0. -/
def stretchPx (mn mx p : Nat) : Nat :=
  if mn < mx then (round (((p : ℚ) - mn) * 255 / ((mx : ℚ) - mn))).toNat
  else 0

/-- Apply one sample map to every channel sample of an image. -/
def mapSamples (f : Nat → Nat) (img : Img) : Img :=
  match img with
  | Img.gray m => Img.gray (m.map (List.map f))
  | Img.color m => Img.color (m.map (List.map (fun p => (f p.1, f p.2.1, f p.2.2))))

/-- `contrast_stretch(image)`:
`cv2.normalize(image, None, alpha=0, beta=255, norm_type=cv2.NORM_MINMAX)`,
a global linear min-max rescale over all channel samples; OpenCV's
`minMaxIdx` rejects an empty source. Modelled from the OpenCV documentation
of this external primitive. -/
def contrast_stretch (image : Img) : Except CvError Img :=
  let s := samples image
  if s.isEmpty then Except.error (CvError.cvError "normalize: empty source array")
  else Except.ok (mapSamples (stretchPx (listMin s) (listMax s)) image)

/-- Nearest-sample resampling of a matrix to `h` rows and `w` columns.
Modelled from the spec: `cv2.resize` is an external primitive the spec
describes only as resizing "via standard interpolation"; the claims concern
only the output's spatial dimensions. -/
def resizeMat {α : Type} (d : α) (m : List (List α)) (w h : Nat) :
    List (List α) :=
  let sh := m.length
  let sw := (m.getD 0 []).length
  (List.range h).map fun i =>
    (List.range w).map fun j =>
      (m.getD (min (i * sh / h) (sh - 1)) []).getD (min (j * sw / w) (sw - 1)) d

/-- `resize_image(image, width, height)`: `cv2.resize(image, (width,
height))`; OpenCV asserts that the target size and the source are
non-empty. -/
def resize_image (image : Img) (width height : Nat) : Except CvError Img :=
  if width = 0 ∨ height = 0 then
    Except.error (CvError.cvError "resize: output size must be positive")
  else
    match image with
    | Img.gray m =>
        if m.isEmpty ∨ (m.getD 0 []).isEmpty then
          Except.error (CvError.cvError "resize: empty source image")
        else Except.ok (Img.gray (resizeMat 0 m width height))
    | Img.color m =>
        if m.isEmpty ∨ (m.getD 0 []).isEmpty then
          Except.error (CvError.cvError "resize: empty source image")
        else Except.ok (Img.color (resizeMat (0, 0, 0) m width height))

/-- The parameter roles of the external `cv2.fastNlMeansDenoisingColored`,
whose documented positional signature is
`(src, dst, h, hColor, templateWindowSize, searchWindowSize)`:
`h` is the luminance filter strength, `hColor` the colour-component filter
strength, `templateWindowSize` the side of the template patch used for
weighted averaging, `searchWindowSize` the side of the search window. -/
structure NlMeansColoredCall where
  h : Nat
  hColor : Nat
  templateWindowSize : Nat
  searchWindowSize : Nat
deriving DecidableEq

/-- Model of the external `cv2.fastNlMeansDenoisingColored(src, dst, p3,
p4, p5, p6)`: it binds its third to sixth positional arguments to the
documented roles `h`, `hColor`, `templateWindowSize`, `searchWindowSize`
in that order. The pixel computation is internal to OpenCV; the spec
promises a denoised image of the same shape, so the image component keeps
the source's shape, and the call record is the behaviour the repository's
code determines. -/
def fastNlMeansDenoisingColored (src : Mat3) (p3 p4 p5 p6 : Nat) :
    Mat3 × NlMeansColoredCall :=
  (src, ⟨p3, p4, p5, p6⟩)

/-- `reduce_noise(image, strength, h, hColor, templateWindowSize)`
(defaults in the source: `strength=20`, `h=10`, `hColor=7`,
`templateWindowSize=21`): the single call
`cv2.fastNlMeansDenoisingColored(image, None, strength, h, hColor,
templateWindowSize)`, arguments passed positionally. -/
def reduce_noise (image : Mat3) (strength h hColor templateWindowSize : Nat) :
    Mat3 × NlMeansColoredCall :=
  fastNlMeansDenoisingColored image strength h hColor templateWindowSize

/-- Height (number of rows) of an image. -/
def imgHeight (img : Img) : Nat :=
  match img with
  | Img.gray m => m.length
  | Img.color m => m.length

/-- Width (length of the first row) of an image. -/
def imgWidth (img : Img) : Nat :=
  match img with
  | Img.gray m => (m.getD 0 []).length
  | Img.color m => (m.getD 0 []).length

/-- A matrix has exactly `h` rows, each of length `w`. -/
def RectMat {α : Type} (m : List (List α)) (h w : Nat) : Prop :=
  m.length = h ∧ ∀ r ∈ m, r.length = w

/-- An image has exactly `h` rows, each of length `w`. -/
def ImgRect (img : Img) (h w : Nat) : Prop :=
  match img with
  | Img.gray m => RectMat m h w
  | Img.color m => RectMat m h w

/-- Whether a result is a Python `ValueError` (the wrapper's own
invalid-argument error, as opposed to an error from inside OpenCV). -/
def isValueError {α : Type} (r : Except CvError α) : Bool :=
  match r with
  | Except.error (CvError.valueError _) => true
  | _ => false

/-- The samples of a successful single-channel result (empty on error). -/
def resultSamples (r : Except CvError Mat1) : List Nat :=
  match r with
  | Except.ok m => m.flatten
  | Except.error _ => []

/-- A constant `m × n` colour image. -/
def constColor (m n : Nat) (p : Px3) : Mat3 :=
  List.replicate m (List.replicate n p)

/-- A constant `m × n` grayscale image. -/
def constMat (m n c : Nat) : Mat1 :=
  List.replicate m (List.replicate n c)

/-- Sample of a single-channel matrix at row `i`, column `j`. -/
def pxAt (m : Mat1) (i j : Nat) : Nat := (m.getD i []).getD j 0

theorem reflect101_lt {n : Nat} (hn : 0 < n) (i : Int) : reflect101 n i < n := by
  unfold reflect101
  by_cases h1 : n ≤ 1
  · simp [h1]; omega
  · simp only [h1, if_false]
    have hp : (0 : Int) < 2 * ((n : Int) - 1) := by
      have : (2 : Int) ≤ (n : Int) := by exact_mod_cast Nat.lt_of_not_le h1
      omega
    have hm0 : 0 ≤ i.emod (2 * ((n : Int) - 1)) := Int.emod_nonneg i (by omega)
    have hmlt : i.emod (2 * ((n : Int) - 1)) < 2 * ((n : Int) - 1) :=
      Int.emod_lt_of_pos i hp
    split
    · omega
    · omega

theorem reflect101_id {n : Nat} (i : Int) (h0 : 0 ≤ i) (hn : i < (n : Int)) :
    reflect101 n i = i.toNat := by
  unfold reflect101
  by_cases h1 : n ≤ 1
  · interval_cases n <;> simp_all <;> omega
  · simp only [h1, if_false]
    have hp : (2 : Int) ≤ (n : Int) := by exact_mod_cast Nat.lt_of_not_le h1
    have hpp : (0 : Int) < 2 * ((n : Int) - 1) := by omega
    have : i.emod (2 * ((n : Int) - 1)) = i := Int.emod_eq_of_lt h0 (by omega)
    rw [this]
    simp only [hn, if_true]

theorem getD_replicate {α : Type} (a d : α) :
    ∀ (k i : Nat), i < k → (List.replicate k a).getD i d = a
  | k + 1, 0, _ => rfl
  | k + 1, i + 1, h => getD_replicate a d k i (by omega)

theorem getD_range_map {α : Type} (f : Nat → α) (d : α) {k i : Nat} (h : i < k) :
    ((List.range k).map f).getD i d = f i := by
  rw [List.getD_eq_getElem?_getD, List.getElem?_map, List.getElem?_range h]
  rfl

theorem range_map_const {α : Type} (k : Nat) (x : α) :
    (List.range k).map (fun _ => x) = List.replicate k x := by
  rw [List.map_const', List.length_range]

theorem getPx_const {m n : Nat} (v : Nat) (hm : 0 < m) (hn : 0 < n) (i j : Int) :
    getPx (constMat m n v) i j = v := by
  have h1 : (List.replicate m (List.replicate n v)).getD (reflect101 m i) [] =
      List.replicate n v :=
    getD_replicate _ _ m _ (reflect101_lt hm i)
  simp only [getPx, constMat, List.length_replicate, h1]
  exact getD_replicate _ _ n _ (reflect101_lt hn j)

theorem sat255_of_le {v : Nat} (hv : v ≤ 255) : sat255 (v : Int) = v := by
  unfold sat255
  omega

theorem foldl_min_choice : ∀ (t : List Nat) (a : Nat),
    t.foldl min a = a ∨ t.foldl min a ∈ t
  | [], _ => Or.inl rfl
  | b :: t, a => by
      rcases foldl_min_choice t (min a b) with h | h
      · rcases Nat.le_total a b with hab | hab
        · exact Or.inl (by simpa [List.foldl, Nat.min_eq_left hab] using h)
        · exact Or.inr (by simp [List.foldl, Nat.min_eq_right hab] at h ⊢; simp [h])
      · exact Or.inr (by simp [List.foldl] at h ⊢; exact Or.inr h)

theorem foldl_min_le : ∀ (t : List Nat) (a : Nat), t.foldl min a ≤ a
  | [], _ => Nat.le_refl _
  | b :: t, a =>
      Nat.le_trans (foldl_min_le t (min a b)) (Nat.min_le_left a b)

theorem foldl_min_le_mem : ∀ (t : List Nat) (a x : Nat), x ∈ t → t.foldl min a ≤ x
  | b :: t, a, x, hx => by
      rcases List.mem_cons.mp hx with h | h
      · subst h
        exact Nat.le_trans (foldl_min_le t (min a x)) (Nat.min_le_right a x)
      · exact foldl_min_le_mem t (min a b) x h

theorem foldl_max_ge : ∀ (t : List Nat) (a : Nat), a ≤ t.foldl max a
  | [], _ => Nat.le_refl _
  | b :: t, a =>
      Nat.le_trans (Nat.le_max_left a b) (foldl_max_ge t (max a b))

theorem foldl_max_ge_mem : ∀ (t : List Nat) (a x : Nat), x ∈ t → x ≤ t.foldl max a
  | b :: t, a, x, hx => by
      rcases List.mem_cons.mp hx with h | h
      · subst h
        exact Nat.le_trans (Nat.le_max_right a x) (foldl_max_ge t (max a x))
      · exact foldl_max_ge_mem t (max a b) x h

theorem foldl_max_choice : ∀ (t : List Nat) (a : Nat),
    t.foldl max a = a ∨ t.foldl max a ∈ t
  | [], _ => Or.inl rfl
  | b :: t, a => by
      rcases foldl_max_choice t (max a b) with h | h
      · rcases Nat.le_total a b with hab | hab
        · exact Or.inr (by simp [List.foldl, Nat.max_eq_right hab] at h ⊢; simp [h])
        · exact Or.inl (by simpa [List.foldl, Nat.max_eq_left hab] using h)
      · exact Or.inr (by simp [List.foldl] at h ⊢; exact Or.inr h)

theorem listMin_mem {l : List Nat} (h : l ≠ []) : listMin l ∈ l := by
  match l with
  | a :: t =>
      show t.foldl min a ∈ a :: t
      rcases foldl_min_choice t a with h' | h'
      · rw [h']; exact List.mem_cons_self a t
      · exact List.mem_cons_of_mem a h'

theorem listMin_le_of_mem {l : List Nat} {x : Nat} (h : x ∈ l) : listMin l ≤ x := by
  match l with
  | a :: t =>
      show t.foldl min a ≤ x
      rcases List.mem_cons.mp h with h' | h'
      · subst h'; exact foldl_min_le t x
      · exact foldl_min_le_mem t a x h'

theorem listMax_mem {l : List Nat} (h : l ≠ []) : listMax l ∈ l := by
  match l with
  | a :: t =>
      show t.foldl max a ∈ a :: t
      rcases foldl_max_choice t a with h' | h'
      · rw [h']; exact List.mem_cons_self a t
      · exact List.mem_cons_of_mem a h'

theorem le_listMax_of_mem {l : List Nat} {x : Nat} (h : x ∈ l) : x ≤ listMax l := by
  match l with
  | a :: t =>
      show x ≤ t.foldl max a
      rcases List.mem_cons.mp h with h' | h'
      · subst h'; exact foldl_max_ge t x
      · exact foldl_max_ge_mem t a x h'

theorem corrAt_sharpen_const {m n : Nat} (v : Nat) (hm : 0 < m) (hn : 0 < n)
    (i j : Nat) : corrAt sharpenKernel (constMat m n v) i j = (v : Int) := by
  have hg : ∀ (x y : Int), getPx (constMat m n v) x y = v := fun x y =>
    getPx_const v hm hn x y
  have hr : List.range 3 = [0, 1, 2] := rfl
  simp [corrAt, sharpenKernel, hg, hr, List.getD]
  ring

theorem filter2D_sharpen_const {m n : Nat} (v : Nat) (hm : 0 < m) (hn : 0 < n)
    (hv : v ≤ 255) : filter2D sharpenKernel (constMat m n v) = constMat m n v := by
  have hlen : (constMat m n v).length = m := by simp [constMat]
  have hrow : (constMat m n v).getD 0 [] = List.replicate n v :=
    getD_replicate _ _ m 0 hm
  have hval : ∀ (i j : Nat),
      sat255 (corrAt sharpenKernel (constMat m n v) i j) = v := fun i j => by
    rw [corrAt_sharpen_const v hm hn i j]; exact sat255_of_le hv
  unfold filter2D
  rw [hlen, hrow, List.length_replicate]
  simp only [hval, range_map_const]
  rfl

theorem chB_const (m n b g r : Nat) : chB (constColor m n (b, g, r)) = constMat m n b := by
  simp [chB, constColor, constMat, List.map_replicate]

theorem chG_const (m n b g r : Nat) : chG (constColor m n (b, g, r)) = constMat m n g := by
  simp [chG, constColor, constMat, List.map_replicate]

theorem chR_const (m n b g r : Nat) : chR (constColor m n (b, g, r)) = constMat m n r := by
  simp [chR, constColor, constMat, List.map_replicate]

theorem filter2DColor_sharpen_const {m n : Nat} (b g r : Nat) (hm : 0 < m)
    (hn : 0 < n) (hb : b ≤ 255) (hg : g ≤ 255) (hr : r ≤ 255) :
    filter2DColor sharpenKernel (constColor m n (b, g, r)) = constColor m n (b, g, r) := by
  have hlen : (constColor m n (b, g, r)).length = m := by simp [constColor]
  have hrow : (constColor m n (b, g, r)).getD 0 [] = List.replicate n (b, g, r) :=
    getD_replicate _ _ m 0 hm
  have hvb : ∀ (i j : Nat),
      sat255 (corrAt sharpenKernel (chB (constColor m n (b, g, r))) i j) = b := fun i j => by
    rw [chB_const, corrAt_sharpen_const b hm hn i j]; exact sat255_of_le hb
  have hvg : ∀ (i j : Nat),
      sat255 (corrAt sharpenKernel (chG (constColor m n (b, g, r))) i j) = g := fun i j => by
    rw [chG_const, corrAt_sharpen_const g hm hn i j]; exact sat255_of_le hg
  have hvr : ∀ (i j : Nat),
      sat255 (corrAt sharpenKernel (chR (constColor m n (b, g, r))) i j) = r := fun i j => by
    rw [chR_const, corrAt_sharpen_const r hm hn i j]; exact sat255_of_le hr
  unfold filter2DColor
  rw [hlen, hrow, List.length_replicate]
  simp only [hvb, hvg, hvr, range_map_const]
  rfl

theorem sharpen_const {m n : Nat} (b g r : Nat) (hm : 0 < m) (hn : 0 < n)
    (hb : b ≤ 255) (hg : g ≤ 255) (hr : r ≤ 255) :
    sharpen (Img.color (constColor m n (b, g, r))) = Img.color (constColor m n (b, g, r)) := by
  show Img.color (filter2DColor sharpenKernel (constColor m n (b, g, r))) = _
  rw [filter2DColor_sharpen_const b g r hm hn hb hg hr]

theorem round_q_mono {x y : ℚ} (h : x ≤ y) : round x ≤ round y := by
  rw [round_eq, round_eq]
  exact Int.floor_le_floor (by linarith)

theorem stretchPx_at_min {mn mx : Nat} (h : mn < mx) : stretchPx mn mx mn = 0 := by
  unfold stretchPx
  rw [if_pos h]
  simp

theorem stretchPx_at_max {mn mx : Nat} (h : mn < mx) : stretchPx mn mx mx = 255 := by
  unfold stretchPx
  rw [if_pos h]
  have hd : ((mx : ℚ) - mn) ≠ 0 := by
    have : (mn : ℚ) < mx := by exact_mod_cast h
    linarith
  rw [mul_comm, mul_div_assoc, div_self hd, mul_one]
  rw [round_ofNat]
  rfl

theorem stretchPx_le {mn mx p : Nat} (h : mn < mx) (h1 : mn ≤ p) (h2 : p ≤ mx) :
    stretchPx mn mx p ≤ 255 := by
  unfold stretchPx
  rw [if_pos h]
  have hd : (0 : ℚ) < (mx : ℚ) - mn := by
    have : (mn : ℚ) < mx := by exact_mod_cast h
    linarith
  have hq : ((p : ℚ) - mn) * 255 / ((mx : ℚ) - mn) ≤ 255 := by
    rw [div_le_iff₀ hd]
    have hpm : ((p : ℚ) - mn) ≤ ((mx : ℚ) - mn) := by
      have : (p : ℚ) ≤ mx := by exact_mod_cast h2
      linarith
    linarith
  have hr := round_q_mono hq
  rw [round_ofNat] at hr
  refine Int.toNat_le.mpr ?_
  exact_mod_cast hr

theorem flatten_map_tripleList (f : Nat → Nat) (l : List Px3) :
    ((l.map (fun p => (f p.1, f p.2.1, f p.2.2))).map tripleList).flatten =
      ((l.map tripleList).flatten).map f := by
  induction l with
  | nil => rfl
  | cons p t ih =>
      simp only [List.map_cons, List.flatten_cons, List.map_append, ih]
      rfl

theorem samples_mapSamples (f : Nat → Nat) (img : Img) :
    samples (mapSamples f img) = (samples img).map f := by
  cases img with
  | gray m =>
      show (m.map (List.map f)).flatten = m.flatten.map f
      rw [List.map_flatten]
  | color m =>
      show ((m.map (List.map fun p => (f p.1, f p.2.1, f p.2.2))).flatten.map
          tripleList).flatten =
        ((m.flatten.map tripleList).flatten).map f
      rw [← List.map_flatten]
      exact flatten_map_tripleList f m.flatten

theorem thresholdOtsu_binary (m : Mat1) :
    ∀ v ∈ (thresholdOtsu m).flatten, v = 0 ∨ v = 255 := by
  intro v hv
  rcases List.mem_flatten.mp hv with ⟨row, hrow, hvrow⟩
  rcases List.mem_map.mp hrow with ⟨row0, _, hrow0⟩
  subst hrow0
  rcases List.mem_map.mp hvrow with ⟨p, _, hp⟩
  subst hp
  by_cases hc : otsuThresh m.flatten < p
  · right; simp [hc]
  · left; simp [hc]

theorem adaptive_binary {m : Mat1} {bs : Nat} {off : Int} {res : Mat1}
    (h : adaptiveThresholdMeanC m bs off = Except.ok res) :
    ∀ v ∈ res.flatten, v = 0 ∨ v = 255 := by
  unfold adaptiveThresholdMeanC at h
  by_cases hc : bs % 2 = 1 ∧ 1 < bs
  · rw [if_pos hc] at h
    injection h with h
    subst h
    intro v hv
    rcases List.mem_flatten.mp hv with ⟨row, hrow, hvrow⟩
    rcases List.mem_map.mp hrow with ⟨i, _, hi⟩
    subst hi
    rcases List.mem_map.mp hvrow with ⟨j, _, hj⟩
    subst hj
    by_cases hlt : ((boxMean m bs i j : Int) - off) < ((m.getD i []).getD j 0 : Int)
    · right; rw [if_pos hlt]
    · left; rw [if_neg hlt]
  · rw [if_neg hc] at h
    exact absurd h (by simp)

theorem foldl_min_self : ∀ (k c : Nat), (List.replicate k c).foldl min c = c
  | 0, _ => rfl
  | k + 1, c => by
      show (List.replicate k c).foldl min (min c c) = c
      rw [Nat.min_self]
      exact foldl_min_self k c

theorem foldl_max_self : ∀ (k c : Nat), (List.replicate k c).foldl max c = c
  | 0, _ => rfl
  | k + 1, c => by
      show (List.replicate k c).foldl max (max c c) = c
      rw [Nat.max_self]
      exact foldl_max_self k c

theorem samples_constColor (m n c : Nat) :
    samples (Img.color (constColor m n (c, c, c))) = List.replicate (m * n * 3) c := by
  show ((constColor m n (c, c, c)).flatten.map tripleList).flatten = _
  unfold constColor
  rw [List.flatten_replicate_replicate, List.map_replicate,
    show tripleList (c, c, c) = List.replicate 3 c from rfl,
    List.flatten_replicate_replicate]

theorem contrast_stretch_const {m n c : Nat} (hm : 0 < m) (hn : 0 < n) :
    contrast_stretch (Img.color (constColor m n (c, c, c))) =
      Except.ok (Img.color (constColor m n (0, 0, 0))) := by
  obtain ⟨k, hk⟩ : ∃ k, m * n * 3 = k + 1 :=
    ⟨m * n * 3 - 1, by
      have : 0 < m * n * 3 := by positivity
      omega⟩
  unfold contrast_stretch
  rw [samples_constColor, hk, List.replicate_succ]
  simp only [List.isEmpty_cons, Bool.false_eq_true, if_false]
  rw [show listMin (c :: List.replicate k c) = c from foldl_min_self k c,
    show listMax (c :: List.replicate k c) = c from foldl_max_self k c]
  have hz : ∀ p : Nat, stretchPx c c p = 0 := fun p => by
    unfold stretchPx
    rw [if_neg (lt_irrefl c)]
  show Except.ok (mapSamples (stretchPx c c) (Img.color (constColor m n (c, c, c)))) = _
  simp only [mapSamples, constColor, List.map_replicate, hz]

theorem apply_threshold_gray_eq (g : Mat1) (meth : String) (bs : Nat) (off : Int) :
    apply_threshold (Img.gray g) meth bs off =
      Except.error (CvError.cvError "cvtColor: Invalid number of channels in input image") := rfl

theorem apply_threshold_color_eq (c : Mat3) (meth : String) (bs : Nat) (off : Int) :
    apply_threshold (Img.color c) meth bs off =
      (if meth = "otsu" then Except.ok (thresholdOtsu (bgr2grayMat c))
       else if meth = "adaptive" then adaptiveThresholdMeanC (bgr2grayMat c) bs off
       else Except.error (CvError.valueError ("Invalid thresholding method: " ++ meth))) := rfl

theorem isValueError_adaptive (g : Mat1) (bs : Nat) (off : Int) :
    isValueError (adaptiveThresholdMeanC g bs off) = false := by
  unfold adaptiveThresholdMeanC
  split <;> rfl

/-- C1: the claim reads `reduce_noise`'s parameters as playing the roles its
docstring gives them, with `templateWindowSize` (default 21) the template
patch size of the underlying denoising call. The code passes the arguments
positionally as `cv2.fastNlMeansDenoisingColored(image, None, strength, h,
hColor, templateWindowSize)`, whose positional parameter order is
`(h, hColor, templateWindowSize, searchWindowSize)`: at the default call the
template patch size actually bound is `hColor = 7`, not 21, and the
wrapper's `templateWindowSize = 21` lands in the `searchWindowSize` slot. -/
theorem C1_reduce_noise_window_roles :
    (∀ (img : Mat3) (s h hc tws : Nat),
      (reduce_noise img s h hc tws).2 = ⟨s, h, hc, tws⟩) ∧
    (reduce_noise [[(0, 0, 0)]] 20 10 7 21).2.templateWindowSize = 7 ∧
    (reduce_noise [[(0, 0, 0)]] 20 10 7 21).2.searchWindowSize = 21 :=
  ⟨fun _ _ _ _ _ => rfl, rfl, rfl⟩

/-- C2 counterexample: the claim quantifies over every image, but on a
single-channel image `apply_threshold` reaches the grayscale conversion
before the method check, so with the unrecognized method `'bogus'` the
error raised is the conversion's `cv2.error`, not an invalid-argument
(`ValueError`) naming the method. -/
theorem C2_counterexample_gray_conversion_first :
    isValueError (apply_threshold (Img.gray [[5]]) "bogus" 5 2) = false ∧
    apply_threshold (Img.gray [[5]]) "bogus" 5 2 =
      Except.error (CvError.cvError "cvtColor: Invalid number of channels in input image") :=
  ⟨rfl, rfl⟩

/-- C2 (amended): for every 3-channel image, `apply_threshold` with a
method other than `'otsu'`/`'adaptive'` raises `ValueError` whose message
names the offending value; for every image, `detect_edges` with a method
other than `'canny'`/`'sobel'` raises `ValueError` naming the value; and
for the accepted literals neither function ever raises an invalid-argument
error. -/
theorem C2_invalid_method_value_errors :
    (∀ (c : Mat3) (meth : String) (bs : Nat) (off : Int),
      meth ≠ "otsu" → meth ≠ "adaptive" →
      apply_threshold (Img.color c) meth bs off =
        Except.error (CvError.valueError ("Invalid thresholding method: " ++ meth))) ∧
    (∀ (img : Img) (meth : String) (lo hi : Nat),
      meth ≠ "canny" → meth ≠ "sobel" →
      detect_edges img meth lo hi =
        Except.error (CvError.valueError ("Invalid edge detection method: " ++ meth))) ∧
    (∀ (img : Img) (bs : Nat) (off : Int) (lo hi : Nat),
      isValueError (apply_threshold img "otsu" bs off) = false ∧
      isValueError (apply_threshold img "adaptive" bs off) = false ∧
      isValueError (detect_edges img "canny" lo hi) = false ∧
      isValueError (detect_edges img "sobel" lo hi) = false) := by
  refine ⟨?_, ?_, ?_⟩
  · intro c meth bs off h1 h2
    rw [apply_threshold_color_eq, if_neg h1, if_neg h2]
  · intro img meth lo hi h1 h2
    unfold detect_edges
    rw [if_neg h1, if_neg h2]
  · intro img bs off lo hi
    refine ⟨?_, ?_, ?_, ?_⟩
    · cases img with
      | gray g => rfl
      | color c => rfl
    · cases img with
      | gray g => rfl
      | color c =>
          rw [apply_threshold_color_eq]
          simp only [if_false, if_true, reduceIte]
          exact isValueError_adaptive _ bs off
    · rfl
    · cases img with
      | gray g => rfl
      | color c => rfl

/-- C2 witness: the amended statement at concrete inputs. -/
theorem C2_invalid_method_witness :
    apply_threshold (Img.color [[(1, 2, 3)]]) "bogus" 5 2 =
      Except.error (CvError.valueError "Invalid thresholding method: bogus") ∧
    detect_edges (Img.gray [[5]]) "bogus" 50 150 =
      Except.error (CvError.valueError "Invalid edge detection method: bogus") := by
  constructor
  · have h := C2_invalid_method_value_errors.1 [[(1, 2, 3)]] "bogus" 5 2
      (by decide) (by decide)
    simpa using h
  · have h := C2_invalid_method_value_errors.2.1 (Img.gray [[5]]) "bogus" 50 150
      (by decide) (by decide)
    simpa using h

/-- C9: `apply_threshold` performs the BGR→grayscale conversion before
validating `method`: on a single-channel image the conversion's error is
raised for every method string, including unrecognized ones, and the
invalid-argument error is reached only after a successful conversion (i.e.
on a 3-channel image). -/
theorem C9_convert_before_validate :
    (∀ (g : Mat1) (meth : String) (bs : Nat) (off : Int),
      apply_threshold (Img.gray g) meth bs off =
        Except.error (CvError.cvError "cvtColor: Invalid number of channels in input image")) ∧
    (∀ (c : Mat3) (meth : String) (bs : Nat) (off : Int),
      meth ≠ "otsu" → meth ≠ "adaptive" →
      apply_threshold (Img.color c) meth bs off =
        Except.error (CvError.valueError ("Invalid thresholding method: " ++ meth))) := by
  constructor
  · intro g meth bs off
    exact apply_threshold_gray_eq g meth bs off
  · intro c meth bs off h1 h2
    rw [apply_threshold_color_eq, if_neg h1, if_neg h2]

/-- C9 witness: at a single-channel image the unrecognized method
`'bogus'` yields the conversion error, and at a 3-channel image it yields
the `ValueError`. -/
theorem C9_convert_before_validate_witness :
    apply_threshold (Img.gray [[7]]) "bogus" 5 2 =
      Except.error (CvError.cvError "cvtColor: Invalid number of channels in input image") ∧
    apply_threshold (Img.color [[(9, 9, 9)]]) "bogus" 5 2 =
      Except.error (CvError.valueError "Invalid thresholding method: bogus") := by
  constructor
  · exact C9_convert_before_validate.1 [[7]] "bogus" 5 2
  · have h := C9_convert_before_validate.2 [[(9, 9, 9)]] "bogus" 5 2
      (by decide) (by decide)
    simpa using h

/-- C10: `detect_edges` converts to grayscale only on the `'sobel'` path:
the `'canny'` branch hands the input image to the detector unconverted (in
particular it succeeds on a single-channel image, where the `'sobel'`
branch fails with the conversion error); the `'sobel'` branch computes the
`CV_64F` x-derivative only (dx=1, dy=0, ksize=5), a signed value — at the
concrete image below the centre sample is the negative value -8160, which
no gradient magnitude could produce. -/
theorem C10_detect_edges_paths :
    (∀ (img : Img) (lo hi : Nat),
      detect_edges img "canny" lo hi =
        Except.ok (EdgeOut.binary (cannyModel img lo hi))) ∧
    (∀ (g : Mat1) (lo hi : Nat),
      detect_edges (Img.gray g) "sobel" lo hi =
        Except.error (CvError.cvError "cvtColor: Invalid number of channels in input image")) ∧
    (∀ (c : Mat3) (lo hi : Nat),
      detect_edges (Img.color c) "sobel" lo hi =
        Except.ok (EdgeOut.grad (correlateInt sobelKernelX5 (bgr2grayMat c)))) ∧
    detect_edges (Img.color [[(255, 255, 255), (0, 0, 0), (0, 0, 0)]]) "sobel" 50 150 =
      Except.ok (EdgeOut.grad [[0, -8160, 0]]) := by
  exact ⟨fun img lo hi => rfl, fun g lo hi => rfl, fun c lo hi => rfl, rfl⟩

theorem adaptive_binary_result (m : Mat1) (bs : Nat) (off : Int) :
    ∀ v ∈ resultSamples (adaptiveThresholdMeanC m bs off), v = 0 ∨ v = 255 := by
  intro v hv
  cases h : adaptiveThresholdMeanC m bs off with
  | ok res =>
      rw [h] at hv
      exact adaptive_binary h v hv
  | error e =>
      rw [h] at hv
      simp [resultSamples] at hv

/-- C3: for every 3-channel colour image, `apply_threshold` (at the
source's default `block_size=5`, `offset=2`) returns a single-channel image
whose samples take only the two values 0 and 255, for both
`method='otsu'` and `method='adaptive'`. -/
theorem C3_apply_threshold_binary :
    ∀ (c : Mat3) (meth : String), meth = "otsu" ∨ meth = "adaptive" →
      ∀ v ∈ resultSamples (apply_threshold (Img.color c) meth 5 2),
        v = 0 ∨ v = 255 := by
  intro c meth hmeth v hv
  rcases hmeth with h | h <;> subst h
  · exact thresholdOtsu_binary (bgr2grayMat c) v hv
  · exact adaptive_binary_result (bgr2grayMat c) 5 2 v hv

/-- C3 witness: the binary-output property at a concrete 2×2 colour
image with `method='otsu'`. -/
theorem C3_apply_threshold_binary_witness :
    ("otsu" = "otsu" ∨ "otsu" = "adaptive") ∧
    (∀ v ∈ resultSamples (apply_threshold
        (Img.color [[(10, 20, 30), (200, 210, 220)], [(0, 0, 0), (255, 255, 255)]])
        "otsu" 5 2), v = 0 ∨ v = 255) :=
  ⟨Or.inl rfl,
   C3_apply_threshold_binary
     [[(10, 20, 30), (200, 210, 220)], [(0, 0, 0), (255, 255, 255)]]
     "otsu" (Or.inl rfl)⟩

theorem resizeMat_rect {α : Type} (d : α) (m : List (List α)) (w h : Nat) :
    RectMat (resizeMat d m w h) h w := by
  constructor
  · simp [resizeMat]
  · intro r hr
    rcases List.mem_map.mp hr with ⟨i, _, hi⟩
    subst hi
    simp

theorem resize_image_gray_eq (m : Mat1) (w h : Nat) :
    resize_image (Img.gray m) w h =
      if w = 0 ∨ h = 0 then
        Except.error (CvError.cvError "resize: output size must be positive")
      else if m.isEmpty ∨ (m.getD 0 []).isEmpty then
        Except.error (CvError.cvError "resize: empty source image")
      else Except.ok (Img.gray (resizeMat 0 m w h)) := rfl

theorem resize_image_color_eq (m : Mat3) (w h : Nat) :
    resize_image (Img.color m) w h =
      if w = 0 ∨ h = 0 then
        Except.error (CvError.cvError "resize: output size must be positive")
      else if m.isEmpty ∨ (m.getD 0 []).isEmpty then
        Except.error (CvError.cvError "resize: empty source image")
      else Except.ok (Img.color (resizeMat (0, 0, 0) m w h)) := rfl

/-- C4: for every valid (non-empty) 2D or 3D image and all positive `w`,
`h`, `resize_image(img, w, h)` succeeds and returns an image with exactly
`h` rows of `w` samples each, i.e. spatial dimensions `(w, h)`. -/
theorem C4_resize_image_dims :
    ∀ (img : Img) (w h : Nat), 0 < w → 0 < h →
      0 < imgHeight img → 0 < imgWidth img →
      ∃ out, resize_image img w h = Except.ok out ∧ ImgRect out h w := by
  intro img w h hw hh hH hW
  cases img with
  | gray m =>
      have h1 : m.isEmpty = false := by
        cases m with
        | nil => exact absurd hH (by simp [imgHeight])
        | cons a t => rfl
      have h2 : (m.getD 0 []).isEmpty = false := by
        cases hrow : m.getD 0 [] with
        | nil =>
            have hz : imgWidth (Img.gray m) = 0 := by
              show (List.getD m 0 []).length = 0
              rw [hrow]
              rfl
            omega
        | cons a t => rfl
      have hcond : ¬ (m.isEmpty = true ∨ (m.getD 0 []).isEmpty = true) := by
        intro hor
        rcases hor with hc | hc
        · rw [h1] at hc; exact Bool.false_ne_true hc
        · rw [h2] at hc; exact Bool.false_ne_true hc
      refine ⟨Img.gray (resizeMat 0 m w h), ?_, resizeMat_rect 0 m w h⟩
      rw [resize_image_gray_eq, if_neg (by omega), if_neg hcond]
  | color m =>
      have h1 : m.isEmpty = false := by
        cases m with
        | nil => exact absurd hH (by simp [imgHeight])
        | cons a t => rfl
      have h2 : (m.getD 0 []).isEmpty = false := by
        cases hrow : m.getD 0 [] with
        | nil =>
            have hz : imgWidth (Img.color m) = 0 := by
              show (List.getD m 0 []).length = 0
              rw [hrow]
              rfl
            omega
        | cons a t => rfl
      have hcond : ¬ (m.isEmpty = true ∨ (m.getD 0 []).isEmpty = true) := by
        intro hor
        rcases hor with hc | hc
        · rw [h1] at hc; exact Bool.false_ne_true hc
        · rw [h2] at hc; exact Bool.false_ne_true hc
      refine ⟨Img.color (resizeMat (0, 0, 0) m w h), ?_, resizeMat_rect (0, 0, 0) m w h⟩
      rw [resize_image_color_eq, if_neg (by omega), if_neg hcond]

/-- C4 witness: resizing a 2×2 grayscale image to width 3, height 5. -/
theorem C4_resize_image_dims_witness :
    ∃ out, resize_image (Img.gray [[1, 2], [3, 4]]) 3 5 = Except.ok out ∧
      ImgRect out 5 3 :=
  C4_resize_image_dims (Img.gray [[1, 2], [3, 4]]) 3 5 (by decide) (by decide)
    (by decide) (by decide)

/-- C6: a 100×100 3-channel image of constant value (128,128,128) passed to
`contrast_stretch` returns a 100×100 image of constant value 0: the
degenerate zero-range input zeroes the scale (OpenCV's epsilon guard), so
every sample maps to 0. -/
theorem C6_contrast_stretch_const128 :
    contrast_stretch (Img.color (constColor 100 100 (128, 128, 128))) =
      Except.ok (Img.color (constColor 100 100 (0, 0, 0))) :=
  contrast_stretch_const (by norm_num) (by norm_num)

/-- C7: a flat constant-colour image is a fixed point of `sharpen` (the
kernel's weights sum to 1), so applying `sharpen` twice returns the same
flat image unchanged. -/
theorem C7_sharpen_twice_const :
    ∀ (m n b g r : Nat), 0 < m → 0 < n → b ≤ 255 → g ≤ 255 → r ≤ 255 →
      sharpen (sharpen (Img.color (constColor m n (b, g, r)))) =
        Img.color (constColor m n (b, g, r)) := by
  intro m n b g r hm hn hb hg hr
  rw [sharpen_const b g r hm hn hb hg hr, sharpen_const b g r hm hn hb hg hr]

/-- C7 witness: the double-sharpen fixed point at a concrete 2×3 flat
image of colour (7, 8, 9). -/
theorem C7_sharpen_twice_const_witness :
    sharpen (sharpen (Img.color (constColor 2 3 (7, 8, 9)))) =
      Img.color (constColor 2 3 (7, 8, 9)) :=
  C7_sharpen_twice_const 2 3 7 8 9 (by decide) (by decide) (by decide)
    (by decide) (by decide)

theorem corrAt_sharpen_getPx (g : Mat1) (i j : Nat) :
    corrAt sharpenKernel g i j =
      5 * (getPx g i j : Int) - getPx g ((i : Int) - 1) j - getPx g ((i : Int) + 1) j -
        getPx g i ((j : Int) - 1) - getPx g i ((j : Int) + 1) := by
  have hr3 : List.range 3 = [0, 1, 2] := rfl
  simp [corrAt, sharpenKernel, hr3]
  ring_nf

theorem getD_mem {α : Type} {m : List α} {i : Nat} (d : α) (h : i < m.length) :
    m.getD i d ∈ m := by
  rw [List.getD_eq_getElem?_getD, List.getElem?_eq_getElem h]
  exact List.getElem_mem h

theorem getPx_inrange {g : Mat1} {h w : Nat} (hrect : RectMat g h w) {x y : Int}
    (hx0 : 0 ≤ x) (hxh : x < (h : Int)) (hy0 : 0 ≤ y) (hyw : y < (w : Int)) :
    getPx g x y = pxAt g x.toNat y.toNat := by
  have hlen : g.length = h := hrect.1
  have hx : x.toNat < g.length := by omega
  have hrow : g.getD x.toNat [] ∈ g := getD_mem [] hx
  have hwrow : (g.getD x.toNat []).length = w := hrect.2 _ hrow
  unfold getPx
  rw [show reflect101 g.length x = x.toNat from by
    rw [hlen]; exact reflect101_id x hx0 hxh]
  show (List.getD g x.toNat []).getD
      (reflect101 (List.getD g x.toNat []).length y) 0 = pxAt g x.toNat y.toNat
  rw [hwrow, reflect101_id y hy0 hyw]
  rfl

theorem pxAt_filter2D (k : List (List Int)) (g : Mat1) {i j : Nat}
    (hi : i < g.length) (hj : j < (g.getD 0 []).length) :
    pxAt (filter2D k g) i j = sat255 (corrAt k g i j) := by
  unfold pxAt filter2D
  rw [getD_range_map _ _ hi, getD_range_map _ _ hj]

theorem filter2D_rect {g : Mat1} {h w : Nat} (k : List (List Int))
    (hrect : RectMat g h w) : RectMat (filter2D k g) h w := by
  constructor
  · simp [filter2D, hrect.1]
  · intro r hr
    rcases List.mem_map.mp hr with ⟨i, hi, hri⟩
    subst hri
    simp only [List.length_map, List.length_range]
    have hi' : i < g.length := List.mem_range.mp hi
    have h0 : (0 : Nat) < g.length := by omega
    exact hrect.2 _ (getD_mem [] h0)

theorem filter2DColor_rect {g : Mat3} {h w : Nat} (k : List (List Int))
    (hrect : RectMat g h w) : RectMat (filter2DColor k g) h w := by
  constructor
  · simp [filter2DColor, hrect.1]
  · intro r hr
    rcases List.mem_map.mp hr with ⟨i, hi, hri⟩
    subst hri
    simp only [List.length_map, List.length_range]
    have hi' : i < g.length := List.mem_range.mp hi
    have h0 : (0 : Nat) < g.length := by omega
    exact hrect.2 _ (getD_mem [] h0)

/-- C8: `sharpen` preserves the image's shape, and at every interior pixel
its output is the saturated correlation with exactly the fixed 3×3 kernel
of centre weight 5, edge-adjacent weight -1 and corner weight 0: the value
is `5·p(i,j) - p(i-1,j) - p(i+1,j) - p(i,j-1) - p(i,j+1)` clamped to
8 bits. -/
theorem C8_sharpen_kernel_and_shape :
    (∀ (img : Img) (h w : Nat), ImgRect img h w → ImgRect (sharpen img) h w) ∧
    (∀ (g : Mat1) (h w : Nat), RectMat g h w →
      ∀ (i j : Nat), 0 < i → i + 1 < h → 0 < j → j + 1 < w →
        pxAt (filter2D sharpenKernel g) i j =
          sat255 (5 * (pxAt g i j : Int) - pxAt g (i - 1) j - pxAt g (i + 1) j -
            pxAt g i (j - 1) - pxAt g i (j + 1))) := by
  constructor
  · intro img h w hrect
    cases img with
    | gray m => exact filter2D_rect sharpenKernel hrect
    | color m => exact filter2DColor_rect sharpenKernel hrect
  · intro g h w hrect i j hi0 hi1 hj0 hj1
    have hlen : g.length = h := hrect.1
    have hi' : i < g.length := by omega
    have h0 : (0 : Nat) < g.length := by omega
    have hw0 : (g.getD 0 []).length = w := hrect.2 _ (getD_mem [] h0)
    have hj' : j < (g.getD 0 []).length := by omega
    rw [pxAt_filter2D sharpenKernel g hi' hj', corrAt_sharpen_getPx]
    congr 1
    rw [@getPx_inrange g h w hrect (i : Int) (j : Int)
        (by omega) (by omega) (by omega) (by omega),
      @getPx_inrange g h w hrect ((i : Int) - 1) (j : Int)
        (by omega) (by omega) (by omega) (by omega),
      @getPx_inrange g h w hrect ((i : Int) + 1) (j : Int)
        (by omega) (by omega) (by omega) (by omega),
      @getPx_inrange g h w hrect (i : Int) ((j : Int) - 1)
        (by omega) (by omega) (by omega) (by omega),
      @getPx_inrange g h w hrect (i : Int) ((j : Int) + 1)
        (by omega) (by omega) (by omega) (by omega)]
    have e1 : ((i : Int)).toNat = i := by omega
    have e2 : (((i : Int)) - 1).toNat = i - 1 := by omega
    have e3 : (((i : Int)) + 1).toNat = i + 1 := by omega
    have f1 : ((j : Int)).toNat = j := by omega
    have f2 : (((j : Int)) - 1).toNat = j - 1 := by omega
    have f3 : (((j : Int)) + 1).toNat = j + 1 := by omega
    rw [e1, e2, e3, f1, f2, f3]

/-- C8 witness: shape preservation and the interior kernel formula at the
centre pixel of a concrete 3×3 image. -/
theorem C8_sharpen_kernel_and_shape_witness :
    ImgRect (sharpen (Img.gray [[1, 2, 3], [4, 5, 6], [7, 8, 9]])) 3 3 ∧
    pxAt (filter2D sharpenKernel [[1, 2, 3], [4, 5, 6], [7, 8, 9]]) 1 1 =
      sat255 (5 * (pxAt [[1, 2, 3], [4, 5, 6], [7, 8, 9]] 1 1 : Int) -
        pxAt [[1, 2, 3], [4, 5, 6], [7, 8, 9]] 0 1 -
        pxAt [[1, 2, 3], [4, 5, 6], [7, 8, 9]] 2 1 -
        pxAt [[1, 2, 3], [4, 5, 6], [7, 8, 9]] 1 0 -
        pxAt [[1, 2, 3], [4, 5, 6], [7, 8, 9]] 1 2) := by
  constructor
  · exact C8_sharpen_kernel_and_shape.1 (Img.gray [[1, 2, 3], [4, 5, 6], [7, 8, 9]])
      3 3 ⟨rfl, by decide⟩
  · exact C8_sharpen_kernel_and_shape.2 [[1, 2, 3], [4, 5, 6], [7, 8, 9]] 3 3
      ⟨rfl, by decide⟩ 1 1 (by decide) (by decide) (by decide) (by decide)

/-- C5: for every non-constant input image (two samples differ),
`contrast_stretch` succeeds and its output's minimum sample value is 0 and
maximum sample value is 255. -/
theorem C5_contrast_stretch_minmax :
    ∀ (img : Img) (a b : Nat), a ∈ samples img → b ∈ samples img → a ≠ b →
      ∃ out, contrast_stretch img = Except.ok out ∧
        listMin (samples out) = 0 ∧ listMax (samples out) = 255 := by
  intro img a b ha hb hab
  have hne : samples img ≠ [] := fun hE => by
    rw [hE] at ha
    exact absurd ha (List.not_mem_nil a)
  have hmnmem : listMin (samples img) ∈ samples img := listMin_mem hne
  have hmxmem : listMax (samples img) ∈ samples img := listMax_mem hne
  have hlt : listMin (samples img) < listMax (samples img) := by
    have h1 : listMin (samples img) ≤ a := listMin_le_of_mem ha
    have h2 : a ≤ listMax (samples img) := le_listMax_of_mem ha
    have h3 : listMin (samples img) ≤ b := listMin_le_of_mem hb
    have h4 : b ≤ listMax (samples img) := le_listMax_of_mem hb
    omega
  have hEmpty : (samples img).isEmpty = false := by
    cases hs : samples img with
    | nil => exact absurd hs hne
    | cons x t => rfl
  refine ⟨mapSamples (stretchPx (listMin (samples img)) (listMax (samples img))) img,
    ?_, ?_, ?_⟩
  · show (if (samples img).isEmpty = true then
        Except.error (CvError.cvError "normalize: empty source array")
      else Except.ok (mapSamples
        (stretchPx (listMin (samples img)) (listMax (samples img))) img)) =
      Except.ok (mapSamples
        (stretchPx (listMin (samples img)) (listMax (samples img))) img)
    rw [hEmpty]
    rfl
  · rw [samples_mapSamples]
    have h0 : stretchPx (listMin (samples img)) (listMax (samples img))
        (listMin (samples img)) = 0 := stretchPx_at_min hlt
    have hmem0 : (0 : Nat) ∈ (samples img).map
        (stretchPx (listMin (samples img)) (listMax (samples img))) := by
      rw [← h0]
      exact List.mem_map_of_mem _ hmnmem
    have := listMin_le_of_mem hmem0
    omega
  · rw [samples_mapSamples]
    have h255 : stretchPx (listMin (samples img)) (listMax (samples img))
        (listMax (samples img)) = 255 := stretchPx_at_max hlt
    have hmem255 : (255 : Nat) ∈ (samples img).map
        (stretchPx (listMin (samples img)) (listMax (samples img))) := by
      rw [← h255]
      exact List.mem_map_of_mem _ hmxmem
    have hge : 255 ≤ listMax ((samples img).map
        (stretchPx (listMin (samples img)) (listMax (samples img)))) :=
      le_listMax_of_mem hmem255
    have hmapne : (samples img).map
        (stretchPx (listMin (samples img)) (listMax (samples img))) ≠ [] := by
      cases hs : samples img with
      | nil => exact absurd hs hne
      | cons x t => simp
    have hmxmem' := listMax_mem hmapne
    rcases List.mem_map.mp hmxmem' with ⟨p, hp, hpe⟩
    have hub : listMax ((samples img).map
        (stretchPx (listMin (samples img)) (listMax (samples img)))) ≤ 255 := by
      rw [← hpe]
      exact stretchPx_le hlt (listMin_le_of_mem hp) (le_listMax_of_mem hp)
    omega

/-- C5 witness: the min/max-span property at the concrete non-constant
grayscale image `[[10, 20, 30]]`. -/
theorem C5_contrast_stretch_minmax_witness :
    (10 ∈ samples (Img.gray [[10, 20, 30]])) ∧ (20 ∈ samples (Img.gray [[10, 20, 30]])) ∧
    ∃ out, contrast_stretch (Img.gray [[10, 20, 30]]) = Except.ok out ∧
      listMin (samples out) = 0 ∧ listMax (samples out) = 255 :=
  ⟨by decide, by decide,
   C5_contrast_stretch_minmax (Img.gray [[10, 20, 30]]) 10 20 (by decide) (by decide)
     (by decide)⟩
